import Mathlib

/-!
Verification development for the ScribusGenerator backend
(`src/ScribusGeneratorBackend.py`, a Python 2 program).

Strings are modelled as `List Char`.  Python `str.replace`, the cleanup
regular expression `\s*%VAR_\w*%\s*` of `re.subn`, `str.strip`,
`str.zfill`, list slicing and the other text operations used by the
program are given executable definitions below, each translated from the
corresponding source line.  Fallible Python code (index errors, `KeyError`)
is modelled with `Option`.  Scribus floating point attribute values
(`PAGEYPOS`, `YPOS`, page height, vertical gap) are idealised as rationals;
integer attributes are `Int`.
-/

namespace ScribusGenerator

/-- Strings as lists of characters. -/
abbrev LStr := List Char

/-- Conversion from Lean string literals to the `List Char` model. -/
def str2l (s : String) : LStr := s.data

/-- Python 2 whitespace (`string.whitespace`, also the `\s` class of the
`re` module for `str` patterns): space, tab, newline, carriage return,
vertical tab, form feed. -/
def isSpaceC (c : Char) : Bool :=
  c = ' ' || c = '\t' || c = '\n' || c = '\r' || c = '\x0b' || c = '\x0c'

/-- Python 2 `\w` class for `str` patterns: ASCII letters, digits and
underscore. -/
def isWordC (c : Char) : Bool :=
  c.isAlpha || c.isDigit || c = '_'

/-- Number of leading characters of the list satisfying `p`. -/
def countLeading (p : Char → Bool) : LStr → Nat
  | [] => 0
  | c :: r => if p c then countLeading p r + 1 else 0

/-- Boolean list-prefix test (`s.startswith(pat)` in Python). -/
def startsWithL : LStr → LStr → Bool
  | [], _ => true
  | _ :: _, [] => false
  | p :: ps, c :: cs => p = c && startsWithL ps cs

/-- `occurs pat s` is true when `pat` occurs as a contiguous substring
of `s` (`pat in s` in Python). -/
def occurs (pat : LStr) : LStr → Bool
  | [] => startsWithL pat []
  | c :: r => startsWithL pat (c :: r) || occurs pat r

/-- Fuelled worker for `replChars`.  One unit of fuel is spent per
character position scanned; `replChars` supplies `s.length` fuel, which
is enough because every step consumes at least one character of `s`
when the pattern is non-empty. -/
def replGo : Nat → LStr → LStr → LStr → LStr
  | 0, s, _, _ => s
  | fuel + 1, s, pat, rep =>
    match s with
    | [] => []
    | c :: s1 =>
      if startsWithL pat (c :: s1) then
        rep ++ replGo fuel ((c :: s1).drop pat.length) pat rep
      else
        c :: replGo fuel s1 pat rep

/-- Python `s.replace(pat, rep)`: left-to-right replacement of every
non-overlapping occurrence.  The program only ever calls it with the
non-empty pattern `'%VAR_' + field + '%'`; the empty-pattern guard (where
Python would interleave `rep` between all characters) returns `s`
unchanged and is never exercised. -/
def replChars (s pat rep : LStr) : LStr :=
  if pat = [] then s else replGo s.length s pat rep

/-- The placeholder marker built by the source line
`tmp = ('%VAR_' + headerRow[i] + '%')`. -/
def markerFor (f : LStr) : LStr := str2l "%VAR_" ++ f ++ str2l "%"

/-- `handleAmpersand` applied to one cell: `i.replace('&', '&amp;')`. -/
def ampEsc (cell : LStr) : LStr := replChars cell (str2l "&") (str2l "&amp;")

/-- `ScribusGenerator.handleAmpersand`: escape every raw `&` in every
cell of a row. -/
def handleAmpersand (row : List LStr) : List LStr := row.map ampEsc

/-- Python `s.strip()`: remove leading and trailing whitespace. -/
def pyStrip (s : LStr) : LStr :=
  ((s.dropWhile isSpaceC).reverse.dropWhile isSpaceC).reverse

/-- The color-definition test of `replaceVariablesWithCsvData`:
`line.strip().startswith('<COLOR ')`. -/
def isColorLine (line : LStr) : Bool :=
  startsWithL (str2l "<COLOR ") (pyStrip line)

/-- Match of the core token `%VAR_` `\w*` `%` at the head of the list;
returns the number of characters consumed.  Matching is deterministic:
`\w` never matches `%`, so the greedy `\w*` cannot backtrack usefully. -/
def coreMatch (s : LStr) : Option Nat :=
  if startsWithL (str2l "%VAR_") s then
    let b := countLeading isWordC (s.drop 5)
    match ((s.drop 5).drop b).head? with
    | some '%' => some (5 + b + 1)
    | _ => none
  else none

/-- Match of the cleanup regular expression `\s*%VAR_\w*%\s*` at the head
of the list (as attempted by `re.subn` at each scan position); returns the
total number of characters consumed.  `\s` never matches `%`, so the
leading greedy `\s*` cannot backtrack usefully either. -/
def matchTokenAt (s : LStr) : Option Nat :=
  let a := countLeading isSpaceC s
  match coreMatch (s.drop a) with
  | some m => some (a + m + countLeading isSpaceC ((s.drop a).drop m))
  | none => none

/-- Fuelled scan of `re.subn(r"\s*%VAR_\w*%\s*", "", line)`: at each
position try the pattern; on a match drop the matched characters and
continue after them, otherwise keep one character.  `cleanSubn` supplies
`s.length` fuel, enough since a match consumes at least six characters. -/
def cleanGo : Nat → LStr → LStr
  | 0, s => s
  | fuel + 1, s =>
    match matchTokenAt s with
    | some n => cleanGo fuel (s.drop n)
    | none =>
      match s with
      | [] => []
      | c :: r => c :: cleanGo fuel r

/-- The cleanup substitution `re.subn(r"\s*%VAR_\w*%\s*", "", line)`
(the replacement count is only logged by the source and is dropped). -/
def cleanSubn (s : LStr) : LStr := cleanGo s.length s

/-- True when a core `%VAR_` `\w*` `%` token occurs anywhere in the list:
exactly when `re.subn` would find at least one match. -/
def hasCore : LStr → Bool
  | [] => (coreMatch []).isSome
  | c :: r => (coreMatch (c :: r)).isSome || hasCore r

/-- The inner loop of `replaceVariablesWithCsvData` over the cells of one
row, carrying the running header index `i`.  Python evaluates
`headerRow[i]` before the color test, so a row longer than the header
raises `IndexError` (modelled by `none`) on color lines too.  The line is
re-tested for being a color definition at every iteration, on its current
value, exactly as the source does. -/
def substCells (headerRow : List LStr) : List LStr → Nat → LStr → Option LStr
  | [], _, line => some line
  | cell :: rest, i, line =>
    match headerRow[i]? with
    | none => none
    | some f =>
      let line2 := if isColorLine line then line else replChars line (markerFor f) cell
      substCells headerRow rest (i + 1) line2

/-- Processing of a single line of `replaceVariablesWithCsvData`: the
cell loop followed, when `clean` is set, by the cleanup substitution. -/
def substLineFull (headerRow row : List LStr) (line : LStr) (clean : Bool) : Option LStr :=
  (substCells headerRow row 0 line).map (fun l => if clean then cleanSubn l else l)

/-- `ScribusGenerator.replaceVariablesWithCsvData`: substitute one row
into the given lines and concatenate the results (`result = result + line`).
`none` models the `IndexError` raised when the row is longer than the
header (see `substCells`). -/
def replaceVariablesWithCsvData (headerRow row : List LStr) (lines : List LStr)
    (clean : Bool) : Option LStr :=
  match lines with
  | [] => some []
  | l :: ls => do
    let a ← substLineFull headerRow row l clean
    let b ← replaceVariablesWithCsvData headerRow row ls clean
    pure (a ++ b)

/-! ### Constants of the `CONST` class -/

/-- `CONST.EMPTY`. -/
def CONST_EMPTY : LStr := []

/-- `CONST.REMOVE_EMPTY_LINES` (source value `1`). -/
def CONST_REMOVE_EMPTY_LINES : Bool := true

/-- `CONST.REPEAT_FIELDS` (source value `1`). -/
def CONST_REPEAT_FIELDS : Nat := 1

/-! ### Output file names -/

/-- Decimal digits of a natural number, `str(n)` for `n >= 0`. -/
def natStr (n : Nat) : LStr := Nat.toDigits 10 n

/-- `str(n)` for a Python integer. -/
def intStr : Int → LStr
  | Int.ofNat m => natStr m
  | Int.negSucc m => '-' :: natStr (m + 1)

/-- Python `str.zfill` for the non-negative loop index. -/
def zfill (s : LStr) (width : Nat) : LStr :=
  List.replicate (width - s.length) '0' ++ s

/-- The `translate` table of `createOutputFileName`: characters illegal in
Windows file names become underscores. -/
def sanitizeFileName (s : LStr) : LStr :=
  s.map (fun c =>
    if c = '<' || c = '>' || c = '?' || c = '"' || c = ':' || c = '|' ||
        c = '\\' || c = '/' || c = '*' then '_' else c)

/-- `ScribusGenerator.createOutputFileName`.  When the user gave no output
name the zero-padded loop index is used; otherwise the name template is
substituted with the row (with the default cleanup setting) and sanitized.
The `decode('utf_8')` step of the source is the Python 2 bytes/unicode
conversion and has no counterpart in the character-list model. -/
def createOutputFileName (index : Nat) (outputFileName : LStr)
    (headerRow row : List LStr) (fillCount : Nat) : Option LStr :=
  let result := zfill (natStr index) fillCount
  if outputFileName = CONST_EMPTY then some result
  else
    (replaceVariablesWithCsvData headerRow row [outputFileName]
      CONST_REMOVE_EMPTY_LINES).map sanitizeFileName

/-! ### The repeat-designator pattern

`re.compile('SGrepeat\_([RLUD])(\d+)?(\_([RLUD]))?(\_([rlud])(\d+))?(\_([rlud])(\d+))?(.+)')`
matched with `p.match` against a `PAGEOBJECT`'s `ANNAME`.  The matcher
below enumerates the remainders reachable after each (optional, possibly
backtracking) group and succeeds when the final mandatory `(.+)` can
consume at least one character (`.` does not match a newline). -/

/-- Consume a literal prefix. -/
def dropLit (pre s : LStr) : Option LStr :=
  if startsWithL pre s then some (s.drop pre.length) else none

/-- Consume one character from the given class. -/
def oneOf (cs : List Char) : LStr → Option LStr
  | [] => none
  | c :: r => if c ∈ cs then some r else none

/-- All remainders after consuming between 1 and all leading digits:
the `(\d+)` group, including its backtracking alternatives. -/
def digitSplits (s : LStr) : List LStr :=
  let d := countLeading Char.isDigit s
  (List.range d).map (fun k => s.drop (k + 1))

/-- Remainders after the group `(\_([RLUD]))`. -/
def dirGroup (s : LStr) : Option LStr := do
  let s1 ← dropLit (str2l "_") s
  oneOf ['R', 'L', 'U', 'D'] s1

/-- Remainders after a margin group `(\_([rlud])(\d+))`. -/
def marginGroup (s : LStr) : List LStr :=
  match dropLit (str2l "_") s with
  | none => []
  | some s1 =>
    match oneOf ['r', 'l', 'u', 'd'] s1 with
    | none => []
    | some s2 => digitSplits s2

/-- Whether `p.match(anname)` succeeds for the repeat pattern above. -/
def matchesRepeat (s : LStr) : Bool :=
  match dropLit (str2l "SGrepeat_") s with
  | none => false
  | some s1 =>
    match oneOf ['R', 'L', 'U', 'D'] s1 with
    | none => false
    | some s2 =>
      let afterLimit := s2 :: digitSplits s2
      let afterDir2 := afterLimit.flatMap (fun t => t :: (dirGroup t).toList)
      let afterM1 := afterDir2.flatMap (fun t => t :: marginGroup t)
      let afterM2 := afterM1.flatMap (fun t => t :: marginGroup t)
      afterM2.any (fun t =>
        match t with
        | c :: _ => c != '\n'
        | [] => false)

/-! ### The orchestrator `run`

`ScribusGenerator.run` is embedded for the multi-output path, the one the
explicit claims exercise.  The template document is represented by its
serialized lines (the `ET.tostringlist(templateElt)` value, after the
attribute-overwrite pass) together with the list of `ANNAME` values of its
`PAGEOBJECT` nodes (the nodes `findall('.//PAGEOBJECT[@ANNAME]')` yields).
The settings-save branch only rewrites the *source* template file and is
not an output document; PDF export and intermediate-file deletion are
external collaborators and are out of scope.  `expandRepeatingObject` in
the source builds a local string and never modifies the tree, so repeat
expansion has no observable effect beyond the early `return 1`: with
`CONST.REPEAT_FIELDS == 1` the header-row branch always ends in
`return 1` (the `return` statement is indented at the level of the `for`
loop over matched pageobjects, not inside `if m:`), so the per-record
branch of the loop is never reached. -/

/-- Python list slicing `l[a:b]` with clamping and negative indices. -/
def pySlice {α : Type} (l : List α) (a b : Int) : List α :=
  let n : Int := l.length
  let lo := if a < 0 then max (a + n) 0 else min a n
  let hi := if b < 0 then max (b + n) 0 else min b n
  (l.take hi.toNat).drop lo.toNat

/-- The body of the generation loop for the data rows (`index >= 1`,
multi-output mode): substitute the row into the template lines, compute
the output file name, write the document (modelled by appending the
name/content pair to the result list). -/
def renderRows (headerRowForReplacingVariables headerRowForFileName : List LStr)
    (templateLines : List LStr) (outputFileName : LStr) (fillCount : Nat) :
    List (List LStr) → Nat → Option (List (LStr × LStr))
  | [], _ => some []
  | row :: rows, index => do
    let outContent ← replaceVariablesWithCsvData headerRowForReplacingVariables
      (handleAmpersand row) templateLines CONST_REMOVE_EMPTY_LINES
    let outName ← createOutputFileName index outputFileName headerRowForFileName row fillCount
    let rest ← renderRows headerRowForReplacingVariables headerRowForFileName
      templateLines outputFileName fillCount rows (index + 1)
    pure ((outName, outContent) :: rest)

/-- `ScribusGenerator.run`, multi-output path.  Returns the status code
together with the written documents as name/content pairs; `none` models
an uncaught exception. -/
def run (csvData : List (List LStr)) (templateLines : List LStr) (annames : List LStr)
    (outputFileName : LStr) (firstRow lastRow : Option Int) :
    Option (Int × List (LStr × LStr)) :=
  if csvData.length < 1 then some (-1, [])
  else if csvData.length < 2 then some (-1, [])
  else
    let firstElement : Int := match firstRow with
      | some n => max n 1
      | none => 1
    let lastElement : Int := match lastRow with
      | some n => min (n + 1) (csvData.length : Int)
      | none => (csvData.length : Int)
    let csvData2 :=
      if firstElement ≠ 1 ∨ lastElement ≠ (csvData.length : Int) then
        pySlice csvData 0 1 ++ pySlice csvData firstElement lastElement
      else csvData
    let dataC := csvData2.length - 1
    let fillCount := (natStr dataC).length
    match csvData2 with
    | [] => some (1, [])
    | headerRow :: dataRows =>
      let headerRowForFileName := headerRow
      let headerRowForReplacingVariables := handleAmpersand headerRow
      if CONST_REPEAT_FIELDS = 1 then
        let _found := (annames.filter matchesRepeat).length
        some (1, [])
      else
        (renderRows headerRowForReplacingVariables headerRowForFileName templateLines
          outputFileName fillCount dataRows 1).map (fun outs => (1, outs))

/-! ### The page/object shifter

`ScribusGenerator.shiftPagesAndObjects`: pages and page objects of the
freshly parsed record fragment are shifted by a vertical offset and
renumbered.  Positions are rationals (Python floats), counts and
identifiers integers (`int(...)` in the source).  `NEXTITEM`/`BACKITEM`
are optional (`obj.get` may return `None`), and a value of `-1` means
"no link" and is preserved. -/

/-- A `PAGE` element with the attributes the shifter touches. -/
structure Page where
  pageypos : ℚ
  num : Int
deriving DecidableEq

/-- A `PAGEOBJECT` element with the attributes the shifter touches. -/
structure SGObject where
  ypos : ℚ
  ownPage : Int
  itemID : Int
  nextitem : Option Int
  backitem : Option Int
deriving DecidableEq

/-- A shifted `PAGEOBJECT` in the 1.5/1.6 scheme, where `ItemID`,
`NEXTITEM` and `BACKITEM` are rewritten to concatenated digit strings. -/
structure SGObjectOut15 where
  ypos : ℚ
  ownPage : Int
  itemID : LStr
  nextitem : Option LStr
  backitem : Option LStr
deriving DecidableEq

/-- The `DOCUMENT` fragment of one rendered record: its `PAGE` and
`PAGEOBJECT` children in document order. -/
structure DocElt where
  pages : List Page
  objects : List SGObject

/-- `page.set('PAGEYPOS', ... + voffset)`, `page.set('NUM', ... + pagescount)`. -/
def shiftPage (pagescount : Int) (voffset : ℚ) (p : Page) : Page :=
  { pageypos := p.pageypos + voffset
    num := p.num + pagescount }

/-- The 1.4 link update: a present link value other than `-1` is offset
by `objscount * index` (links are by position index). -/
def shiftLink14 (objscount : Int) (index : Nat) : Option Int → Option Int
  | none => none
  | some v => if v = -1 then some v else some (v + objscount * index)

/-- A shifted `PAGEOBJECT` in the 1.4 scheme. -/
def shiftObject14 (pagescount : Int) (voffset : ℚ) (objscount : Int) (index : Nat)
    (o : SGObject) : SGObject :=
  { ypos := o.ypos + voffset
    ownPage := o.ownPage + pagescount
    itemID := o.itemID
    nextitem := shiftLink14 objscount index o.nextitem
    backitem := shiftLink14 objscount index o.backitem }

/-- The 1.5/1.6 identifier rewrite
`str(objscount * index) + str(int(v))[3:]`: the decimal string of the
stride is concatenated with the identifier's decimal digits minus the
first three characters. -/
def newID15 (objscount : Int) (index : Nat) (v : Int) : LStr :=
  intStr (objscount * (index : Int)) ++ (intStr v).drop 3

/-- The 1.5 link update: `-1` keeps its serialized form, any other
present value is rewritten like `ItemID`. -/
def shiftLink15 (objscount : Int) (index : Nat) : Option Int → Option LStr
  | none => none
  | some v => if v = -1 then some (intStr v) else some (newID15 objscount index v)

/-- A shifted `PAGEOBJECT` in the 1.5/1.6 scheme. -/
def shiftObject15 (pagescount : Int) (voffset : ℚ) (objscount : Int) (index : Nat)
    (o : SGObject) : SGObjectOut15 :=
  { ypos := o.ypos + voffset
    ownPage := o.ownPage + pagescount
    itemID := newID15 objscount index o.itemID
    nextitem := shiftLink15 objscount index o.nextitem
    backitem := shiftLink15 objscount index o.backitem }

/-- `ScribusGenerator.shiftPagesAndObjects`.  Returns the shifted pages
followed by the shifted objects (the source appends pages first, then
objects, to the `shifted` list).  `groupscount` is accepted but unused:
the `NUMGROUP` update is commented out in the source. -/
def shiftPagesAndObjects (docElt : DocElt) (pagescount : Int) (pageheight vgap : ℚ)
    (index : Nat) (groupscount objscount : Int) (version : LStr) :
    List Page × (List SGObject ⊕ List SGObjectOut15) :=
  let _ := groupscount
  let voffset := (pageheight + vgap) * (index : ℚ)
  let pages := docElt.pages.map (shiftPage pagescount voffset)
  if startsWithL (str2l "1.4") version then
    (pages, Sum.inl (docElt.objects.map (shiftObject14 pagescount voffset objscount index)))
  else
    (pages, Sum.inr (docElt.objects.map (shiftObject15 pagescount voffset objscount index)))

/-- Vertical position and owning page of every shifted object, the fields
shared by both identifier schemes. -/
def shiftedGeometry : List SGObject ⊕ List SGObjectOut15 → List (ℚ × Int)
  | Sum.inl l => l.map (fun o => (o.ypos, o.ownPage))
  | Sum.inr l => l.map (fun o => (o.ypos, o.ownPage))

/-- Serialized identifiers of every shifted object. -/
def shiftedIDs : List SGObject ⊕ List SGObjectOut15 → List LStr
  | Sum.inl l => l.map (fun o => intStr o.itemID)
  | Sum.inr l => l.map (fun o => o.itemID)

/-! ### The attribute-override resolver

`ScribusGenerator.overwriteAttributesFromSGAttributes` rewrites the
attribute named by an `ItemAttribute[@Type='SGAttribute']` annotation on
every node the annotation's `Parameter` path resolves to, relative to the
annotated content node.  Elements are a tree of tag, attribute list and
children; the supported path language is the one the source produces:
`.` (the node itself) and `/`-separated child-tag segments. -/

/-- A markup element. -/
inductive XElt where
  | mk (tag : LStr) (attrs : List (LStr × LStr)) (children : List XElt)

/-- Tag of an element. -/
def XElt.tag : XElt → LStr
  | .mk t _ _ => t

/-- Attribute list of an element. -/
def XElt.attrs : XElt → List (LStr × LStr)
  | .mk _ a _ => a

/-- Children of an element. -/
def XElt.children : XElt → List XElt
  | .mk _ _ ch => ch

/-- `ElementTree` `element.set(k, v)` on the attribute list: overwrite an
existing entry or append a new one. -/
def setAttrList (attrs : List (LStr × LStr)) (k v : LStr) : List (LStr × LStr) :=
  if attrs.any (fun kv => kv.1 == k) then
    attrs.map (fun kv => if kv.1 == k then (k, v) else kv)
  else attrs ++ [(k, v)]

/-- `element.set(k, v)`. -/
def XElt.setA : XElt → LStr → LStr → XElt
  | .mk t a ch, k, v => .mk t (setAttrList a k v) ch

/-- Split a path on `/` into segments. -/
def pathSegments (p : LStr) : List LStr :=
  match p with
  | [] => [[]]
  | c :: r =>
    if c = '/' then [] :: pathSegments r
    else
      match pathSegments r with
      | [] => [[c]]
      | h :: t => (c :: h) :: t

/-- The `Parameter` normalization of the source: an empty path targets
the annotated node itself (`param = "."`), a path starting with `/` is
made relative-searchable (`param = "." + param`). -/
def normalizeParam (param : LStr) : LStr :=
  if param = [] then str2l "."
  else if startsWithL (str2l "/") param then str2l "." ++ param
  else param

/-- One path segment applied to a node set: `.` keeps the set, a tag name
selects the matching children. -/
def selectSeg (seg : LStr) (es : List XElt) : List XElt :=
  if seg = str2l "." then es
  else (es.map (fun e => e.children.filter (fun c => c.tag == seg))).flatten

/-- `pageobject.findall(param)` for the supported path language. -/
def findallModel (e : XElt) (segs : List LStr) : List XElt :=
  segs.foldl (fun acc seg => selectSeg seg acc) [e]

/-- Set the attribute on every node reached by the segments, in place in
the tree — the effect of the `for target in targets : target.set(...)`
loop of the source (a path resolving to no node leaves the tree
unchanged, which the source only logs). -/
def updAt (nv : LStr × LStr) : List LStr → XElt → XElt
  | [], e => e.setA nv.1 nv.2
  | seg :: rest, e =>
    if seg = str2l "." then updAt nv rest e
    else
      match e with
      | .mk t a ch =>
        .mk t a (ch.map (fun c => if c.tag == seg then updAt nv rest c else c))

/-- The per-annotation body of `overwriteAttributesFromSGAttributes`:
normalize the `Parameter` path and set `attribute := value` on every
resolved target inside the annotated content node. -/
def overwriteStep (pageobject : XElt) (attrName value param : LStr) : XElt :=
  updAt (attrName, value) (pathSegments (normalizeParam param)) pageobject

/-! ### Persisted settings

`GeneratorDataObject.loadFromString` parses the JSON blob, replaces
`None` values by `CONST.EMPTY`, then reads the nine expected keys by
subscription — a missing key raises `KeyError`, modelled by `none`.  The
parsed blob is an association list of key and value, where the value
`none` is JSON `null`. -/

/-- The settings fields `loadFromString` assigns. -/
structure GeneratorSettings where
  dataSourceFile : LStr
  outputDirectory : LStr
  outputFileName : LStr
  outputFormat : LStr
  keepGeneratedScribusFiles : LStr
  csvSeparator : LStr
  singleOutput : LStr
  firstRow : LStr
  lastRow : LStr
deriving DecidableEq

/-- Dictionary lookup `j[k]` (first binding wins; a parsed JSON object
has distinct keys). -/
def jLookup (k : LStr) (j : List (LStr × LStr)) : Option LStr :=
  (j.find? (fun kv => kv.1 == k)).map (fun kv => kv.2)

/-- Lookup in the raw blob, before `None` values are replaced. -/
def rawLookup (k : LStr) (j : List (LStr × Option LStr)) : Option (Option LStr) :=
  (j.find? (fun kv => kv.1 == k)).map (fun kv => kv.2)

/-- The `for k,v in j.iteritems(): if v == None: j[k] = CONST.EMPTY` loop. -/
def normNulls (j : List (LStr × Option LStr)) : List (LStr × LStr) :=
  j.map (fun kv => (kv.1, kv.2.getD CONST_EMPTY))

/-- `GeneratorDataObject.loadFromString` (the settings assignments;
`scribusSourceFile` and `saveSettings` are not loaded). -/
def loadFromString (j : List (LStr × Option LStr)) : Option GeneratorSettings :=
  let j2 := normNulls j
  do
    let csvfile ← jLookup (str2l "csvfile") j2
    let outdir ← jLookup (str2l "outdir") j2
    let outname ← jLookup (str2l "outname") j2
    let outformat ← jLookup (str2l "outformat") j2
    let keepsla ← jLookup (str2l "keepsla") j2
    let separator ← jLookup (str2l "separator") j2
    let single ← jLookup (str2l "single") j2
    let fromRow ← jLookup (str2l "from") j2
    let toRow ← jLookup (str2l "to") j2
    pure ⟨csvfile, outdir, outname, outformat, keepsla, separator, single, fromRow, toRow⟩

/-- The nine keys `loadFromString` subscripts. -/
def expectedSettingsKeys : List LStr :=
  [str2l "csvfile", str2l "outdir", str2l "outname", str2l "outformat",
   str2l "keepsla", str2l "separator", str2l "single", str2l "from", str2l "to"]

/-! ### Lemmas about the string machinery -/

lemma startsWithL_append (p t : LStr) : startsWithL p (p ++ t) = true := by
  induction p with
  | nil => rfl
  | cons c cs ih => simp [startsWithL, ih]

lemma startsWithL_iff_take (p : LStr) : ∀ s : LStr,
    startsWithL p s = true ↔ s.take p.length = p := by
  induction p with
  | nil => intro s; simp [startsWithL]
  | cons c cs ih =>
    intro s
    cases s with
    | nil => simp [startsWithL]
    | cons d ds =>
      simp only [startsWithL, Bool.and_eq_true, decide_eq_true_eq, List.length_cons,
        List.take_succ_cons, List.cons.injEq, ih]
      constructor
      · rintro ⟨h1, h2⟩; exact ⟨h1.symm, h2⟩
      · rintro ⟨h1, h2⟩; exact ⟨h1.symm, h2⟩

lemma occurs_of_startsWith {pat s : LStr} (h : startsWithL pat s = true) :
    occurs pat s = true := by
  cases s with
  | nil => simpa [occurs] using h
  | cons c r => simp [occurs, h]

lemma occurs_append_right (pat x t : LStr) (h : occurs pat t = true) :
    occurs pat (x ++ t) = true := by
  induction x with
  | nil => simpa using h
  | cons c xs ih => simp [occurs, ih]

lemma occurs_false_right {pat x t : LStr} (h : occurs pat (x ++ t) = false) :
    occurs pat t = false := by
  cases ho : occurs pat t with
  | false => rfl
  | true => rw [occurs_append_right pat x t ho] at h; cases h

lemma occurs_cons_false {pat : LStr} {c : Char} {r : LStr}
    (h : occurs pat (c :: r) = false) :
    startsWithL pat (c :: r) = false ∧ occurs pat r = false := by
  have := h
  simp [occurs] at this
  exact this

lemma replGo_nil (pat rep : LStr) : ∀ fuel, replGo fuel [] pat rep = [] := by
  intro fuel; cases fuel <;> rfl

lemma replGo_noop (pat rep : LStr) : ∀ (fuel : Nat) (s : LStr),
    occurs pat s = false → replGo fuel s pat rep = s := by
  intro fuel
  induction fuel with
  | zero => intro s _; rfl
  | succ f ih =>
    intro s h
    cases s with
    | nil => rfl
    | cons c s1 =>
      obtain ⟨h1, h2⟩ := occurs_cons_false h
      simp [replGo, h1, ih s1 h2]

lemma replChars_noop {pat : LStr} (s rep : LStr) (h : occurs pat s = false) :
    replChars s pat rep = s := by
  by_cases hp : pat = []
  · simp [replChars, hp]
  · simp [replChars, hp, replGo_noop pat rep s.length s h]

lemma replGo_fuel (pat rep : LStr) (hp : pat ≠ []) : ∀ (f1 f2 : Nat) (s : LStr),
    s.length ≤ f1 → s.length ≤ f2 → replGo f1 s pat rep = replGo f2 s pat rep := by
  have hpl : 1 ≤ pat.length := List.length_pos.mpr hp
  intro f1
  induction f1 with
  | zero =>
    intro f2 s h1 _
    have : s = [] := List.eq_nil_of_length_eq_zero (Nat.le_zero.mp h1)
    subst this
    rw [replGo_nil, replGo_nil]
  | succ f ih =>
    intro f2 s h1 h2
    cases s with
    | nil => rw [replGo_nil, replGo_nil]
    | cons c s1 =>
      cases f2 with
      | zero => simp at h2
      | succ f2p =>
        simp only [replGo]
        by_cases hs : startsWithL pat (c :: s1) = true
        · rw [if_pos hs, if_pos hs]
          have hd : ((c :: s1).drop pat.length).length ≤ s1.length := by
            simp [List.length_drop]
            omega
          have hf1 : ((c :: s1).drop pat.length).length ≤ f := by
            simp at h1; omega
          have hf2 : ((c :: s1).drop pat.length).length ≤ f2p := by
            simp at h2; omega
          rw [ih f2p _ hf1 hf2]
        · rw [if_neg hs, if_neg hs]
          have hf1 : s1.length ≤ f := by simp at h1; omega
          have hf2 : s1.length ≤ f2p := by simp at h2; omega
          rw [ih f2p s1 hf1 hf2]

lemma occurs_nil_pat (s : LStr) : occurs [] s = true := by
  cases s <;> simp [occurs, startsWithL]

lemma startsWithL_false_of_not_occurs {pat t1 : LStr} (u : LStr) (hu : u ≠ [])
    (h : occurs pat (u ++ pat.dropLast) = false) :
    startsWithL pat (u ++ pat ++ t1) = false := by
  by_cases hp : pat = []
  · subst hp
    rw [occurs_nil_pat] at h
    cases h
  cases hsw : startsWithL pat (u ++ pat ++ t1) with
  | false => rfl
  | true =>
    exfalso
    have htake : (u ++ (pat ++ t1)).take pat.length = pat := by
      rw [← List.append_assoc]
      exact (startsWithL_iff_take pat _).mp hsw
    have hul : 1 ≤ u.length := List.length_pos.mpr hu
    have hpl : 1 ≤ pat.length := List.length_pos.mpr hp
    rw [List.take_append_eq_append_take] at htake
    have htake2 : (u ++ pat.dropLast).take pat.length = pat := by
      rw [List.take_append_eq_append_take]
      rcases Nat.le_total pat.length u.length with hle | hle
      · have h0 : pat.length - u.length = 0 := Nat.sub_eq_zero_of_le hle
        rw [h0] at htake ⊢
        simpa using htake
      · have hk : pat.length - u.length ≤ pat.length - 1 := by omega
        have e1 : (pat.dropLast).take (pat.length - u.length)
            = pat.take (pat.length - u.length) := by
          rw [List.dropLast_eq_take, List.take_take, Nat.min_eq_left hk]
        have e2 : (pat ++ t1).take (pat.length - u.length)
            = pat.take (pat.length - u.length) := by
          rw [List.take_append_eq_append_take]
          have h3 : pat.length - u.length - pat.length = 0 := by omega
          rw [h3]
          simp
        rw [e2] at htake
        rw [e1]
        exact htake
    have hsw2 : startsWithL pat (u ++ pat.dropLast) = true :=
      (startsWithL_iff_take pat _).mpr htake2
    have hocc2 : occurs pat (u ++ pat.dropLast) = true := occurs_of_startsWith hsw2
    rw [hocc2] at h
    cases h

lemma replGo_split (pat rep : LStr) (hp : pat ≠ []) : ∀ (t0 : LStr) (t1 : LStr) (fuel : Nat),
    (t0 ++ pat ++ t1).length ≤ fuel →
    occurs pat (t0 ++ pat.dropLast) = false →
    replGo fuel (t0 ++ pat ++ t1) pat rep = t0 ++ rep ++ replGo t1.length t1 pat rep := by
  have hpl : 1 ≤ pat.length := List.length_pos.mpr hp
  intro t0
  induction t0 with
  | nil =>
    intro t1 fuel hfuel _
    simp only [List.nil_append] at hfuel ⊢
    have hlen : 1 ≤ (pat ++ t1).length := by simp; omega
    cases fuel with
    | zero => omega
    | succ f =>
      obtain ⟨c, s1, hcs⟩ : ∃ c s1, pat ++ t1 = c :: s1 := by
        cases hpt : pat ++ t1 with
        | nil => rw [hpt] at hlen; simp at hlen
        | cons c s1 => exact ⟨c, s1, rfl⟩
      rw [hcs]
      have hsw : startsWithL pat (c :: s1) = true := by
        rw [← hcs]; exact startsWithL_append pat t1
      simp only [replGo, hsw, if_pos]
      rw [← hcs, List.drop_left]
      have hf : t1.length ≤ f := by
        simp [List.length_append] at hfuel; omega
      rw [replGo_fuel pat rep hp f t1.length t1 hf (Nat.le_refl _)]
  | cons c t0s ih =>
    intro t1 fuel hfuel hocc
    have hlen : 1 ≤ ((c :: t0s) ++ pat ++ t1).length := by simp
    cases fuel with
    | zero => omega
    | succ f =>
      have hsw : startsWithL pat ((c :: t0s) ++ pat ++ t1) = false :=
        startsWithL_false_of_not_occurs (c :: t0s) (by simp) hocc
      have hre : (c :: t0s) ++ pat ++ t1 = c :: (t0s ++ pat ++ t1) := by simp
      rw [hre]
      rw [hre] at hsw
      simp only [replGo, hsw]
      rw [if_neg (by simp [hsw])]
      have hocc2 : occurs pat (t0s ++ pat.dropLast) = false := by
        have : occurs pat ((c :: t0s) ++ pat.dropLast) = false := hocc
        rw [show (c :: t0s) ++ pat.dropLast = c :: (t0s ++ pat.dropLast) by simp] at this
        exact (occurs_cons_false this).2
      have hf : (t0s ++ pat ++ t1).length ≤ f := by
        simp [List.length_append] at hfuel ⊢; omega
      rw [ih t1 f hf hocc2]
      simp

lemma replChars_split {pat : LStr} (t0 t1 rep : LStr) (hp : pat ≠ [])
    (hocc : occurs pat (t0 ++ pat.dropLast) = false) :
    replChars (t0 ++ pat ++ t1) pat rep = t0 ++ rep ++ replChars t1 pat rep := by
  simp only [replChars, if_neg hp]
  exact replGo_split pat rep hp t0 t1 _ (Nat.le_refl _) hocc

lemma markerFor_ne_nil (f : LStr) : markerFor f ≠ [] := by
  intro h
  have h2 : (markerFor f).length = 0 := by rw [h]; rfl
  rw [markerFor] at h2
  simp [List.length_append] at h2
  exact absurd h2.1 (by decide)

/-! ### Lemmas about the cell loop -/

lemma substCells_noop (headerRow : List LStr) : ∀ (row : List LStr) (i : Nat) (l : LStr),
    i + row.length ≤ headerRow.length →
    (∀ j f, headerRow[i + j]? = some f → j < row.length →
      occurs (markerFor f) l = false) →
    substCells headerRow row i l = some l := by
  intro row
  induction row with
  | nil => intro i l _ _; rfl
  | cons cell rest ih =>
    intro i l hlen hmk
    have hi : i < headerRow.length := by simp at hlen; omega
    obtain ⟨f, hf⟩ : ∃ f, headerRow[i]? = some f := by
      cases hg : headerRow[i]? with
      | none => exact absurd (List.getElem?_eq_none_iff.mp hg) (by omega)
      | some f => exact ⟨f, rfl⟩
    have hocc : occurs (markerFor f) l = false := by
      apply hmk 0 f
      · simpa using hf
      · simp
    have hline : (if isColorLine l then l else replChars l (markerFor f) cell) = l := by
      split
      · rfl
      · exact replChars_noop l cell hocc
    simp only [substCells, hf, hline]
    apply ih (i + 1) l
    · simp at hlen ⊢; omega
    · intro j g hg hj
      apply hmk (j + 1) g
      · rw [show i + (j + 1) = i + 1 + j by omega]; exact hg
      · simp; omega

lemma substCells_color (headerRow : List LStr) : ∀ (row : List LStr) (i : Nat) (l : LStr),
    i + row.length ≤ headerRow.length → isColorLine l = true →
    substCells headerRow row i l = some l := by
  intro row
  induction row with
  | nil => intro i l _ _; rfl
  | cons cell rest ih =>
    intro i l hlen hcol
    have hi : i < headerRow.length := by simp at hlen; omega
    obtain ⟨f, hf⟩ : ∃ f, headerRow[i]? = some f := by
      cases hg : headerRow[i]? with
      | none => exact absurd (List.getElem?_eq_none_iff.mp hg) (by omega)
      | some f => exact ⟨f, rfl⟩
    simp only [substCells, hf, hcol, if_pos]
    apply ih (i + 1) l (by simp at hlen ⊢; omega) hcol

lemma substCells_overflow (headerRow : List LStr) : ∀ (row : List LStr) (i : Nat) (l : LStr),
    row ≠ [] → headerRow.length < i + row.length →
    substCells headerRow row i l = none := by
  intro row
  induction row with
  | nil => intro i l h _; exact absurd rfl h
  | cons cell rest ih =>
    intro i l _ hlen
    cases hg : headerRow[i]? with
    | none => simp [substCells, hg]
    | some f =>
      have hi : i < headerRow.length := by
        cases hlt : Nat.decLt i headerRow.length with
        | isTrue h => exact h
        | isFalse h =>
          rw [List.getElem?_eq_none (by omega)] at hg
          cases hg
      have hrest : rest ≠ [] := by
        intro hr
        subst hr
        simp at hlen
        omega
      simp only [substCells, hg]
      exact ih (i + 1) _ hrest (by simp at hlen ⊢; omega)

lemma substCells_hit (headerRow : List LStr) :
    ∀ (row : List LStr) (i0 i : Nat) (f cell t0 t1 : LStr),
    headerRow[i0 + i]? = some f →
    row[i]? = some cell →
    i0 + row.length ≤ headerRow.length →
    isColorLine (t0 ++ markerFor f ++ t1) = false →
    occurs (markerFor f) (t0 ++ (markerFor f).dropLast) = false →
    occurs (markerFor f) t1 = false →
    (∀ j g, j < i → headerRow[i0 + j]? = some g →
      occurs (markerFor g) (t0 ++ markerFor f ++ t1) = false) →
    (∀ j g, i < j → j < row.length → headerRow[i0 + j]? = some g →
      occurs (markerFor g) (t0 ++ cell ++ t1) = false) →
    substCells headerRow row i0 (t0 ++ markerFor f ++ t1) = some (t0 ++ cell ++ t1) := by
  intro row
  induction row with
  | nil => intro i0 i f cell t0 t1 _ hcell; cases hcell
  | cons c rest ih =>
    intro i0 i f cell t0 t1 hf hcell hlen hcol hfirst ht1 hbefore hafter
    cases i with
    | zero =>
      have hc : c = cell := by simpa using hcell
      subst hc
      have hf0 : headerRow[i0]? = some f := by simpa using hf
      have hrepl : replChars (t0 ++ markerFor f ++ t1) (markerFor f) c
          = t0 ++ c ++ t1 := by
        rw [replChars_split t0 t1 c (markerFor_ne_nil f) hfirst,
          replChars_noop t1 c ht1]
      simp only [substCells, hf0, hcol, if_neg, Bool.false_eq_true,
        not_false_eq_true, hrepl]
      apply substCells_noop headerRow rest (i0 + 1) (t0 ++ c ++ t1)
      · simp at hlen ⊢; omega
      · intro j g hg hj
        apply hafter (j + 1) g (by omega) (by simp; omega)
        rw [show i0 + (j + 1) = i0 + 1 + j by omega]; exact hg
    | succ i2 =>
      have hi0 : i0 < headerRow.length := by simp at hlen; omega
      obtain ⟨g0, hg0⟩ : ∃ g0, headerRow[i0]? = some g0 := by
        cases hg : headerRow[i0]? with
        | none => exact absurd (List.getElem?_eq_none_iff.mp hg) (by omega)
        | some g0 => exact ⟨g0, rfl⟩
      have hocc0 : occurs (markerFor g0) (t0 ++ markerFor f ++ t1) = false := by
        apply hbefore 0 g0 (Nat.succ_pos i2)
        simpa using hg0
      have hline : (if isColorLine (t0 ++ markerFor f ++ t1) then t0 ++ markerFor f ++ t1
          else replChars (t0 ++ markerFor f ++ t1) (markerFor g0) c)
          = t0 ++ markerFor f ++ t1 := by
        split
        · rfl
        · exact replChars_noop _ c hocc0
      simp only [substCells, hg0, hline]
      apply ih (i0 + 1) i2 f cell t0 t1
      · rw [show i0 + 1 + i2 = i0 + (i2 + 1) by omega]; exact hf
      · simpa using hcell
      · simp at hlen ⊢; omega
      · exact hcol
      · exact hfirst
      · exact ht1
      · intro j g hj hg
        apply hbefore (j + 1) g (by omega)
        rw [show i0 + (j + 1) = i0 + 1 + j by omega]; exact hg
      · intro j g hj1 hj2 hg
        apply hafter (j + 1) g (by omega) (by simp; omega)
        rw [show i0 + (j + 1) = i0 + 1 + j by omega]; exact hg

/-! ### Lemmas about the cleanup scan -/

lemma cleanGo_nil : ∀ fuel, cleanGo fuel [] = [] := by
  intro fuel; cases fuel <;> rfl

lemma hasCore_of_coreMatch : ∀ (s : LStr) (k : Nat),
    (coreMatch (s.drop k)).isSome = true → hasCore s = true := by
  intro s
  induction s with
  | nil =>
    intro k h
    rw [List.drop_nil] at h
    have : coreMatch [] = none := rfl
    rw [this] at h
    cases h
  | cons c r ih =>
    intro k h
    cases k with
    | zero =>
      rw [List.drop_zero] at h
      simp [hasCore, h]
    | succ k2 =>
      rw [List.drop_succ_cons] at h
      simp [hasCore, ih k2 h]

lemma matchTokenAt_some_hasCore {s : LStr} {n : Nat} (h : matchTokenAt s = some n) :
    hasCore s = true := by
  rw [matchTokenAt] at h
  cases hm : coreMatch (s.drop (countLeading isSpaceC s)) with
  | none => rw [hm] at h; cases h
  | some m =>
    exact hasCore_of_coreMatch s (countLeading isSpaceC s) (by rw [hm]; rfl)

lemma cleanGo_noop : ∀ (fuel : Nat) (s : LStr), hasCore s = false → cleanGo fuel s = s := by
  intro fuel
  induction fuel with
  | zero => intro s _; rfl
  | succ f ih =>
    intro s h
    have hm : matchTokenAt s = none := by
      cases hmt : matchTokenAt s with
      | none => rfl
      | some n => rw [matchTokenAt_some_hasCore hmt] at h; cases h
    cases s with
    | nil => simp [cleanGo, hm]
    | cons c r =>
      have hr : hasCore r = false := by
        simp [hasCore] at h
        exact h.2
      simp [cleanGo, hm, ih r hr]

lemma cleanSubn_noop {s : LStr} (h : hasCore s = false) : cleanSubn s = s :=
  cleanGo_noop s.length s h

lemma countLeading_append_all (p : Char → Bool) (xs ys : LStr)
    (h : ∀ c ∈ xs, p c = true) :
    countLeading p (xs ++ ys) = xs.length + countLeading p ys := by
  induction xs with
  | nil => simp
  | cons c r ih =>
    have hc : p c = true := h c (by simp)
    have hr : ∀ c ∈ r, p c = true := fun d hd => h d (by simp [hd])
    simp [countLeading, hc, ih hr]
    omega

lemma countLeading_all (p : Char → Bool) (xs : LStr) (h : ∀ c ∈ xs, p c = true) :
    countLeading p xs = xs.length := by
  have := countLeading_append_all p xs [] h
  simpa using this

lemma countLeading_cons_false (p : Char → Bool) (c : Char) (r : LStr) (h : p c = false) :
    countLeading p (c :: r) = 0 := by
  simp [countLeading, h]

/-- `matchTokenAt` consumes the whole line when the line consists of
whitespace, one `%VAR_` `\w*` `%` token, and whitespace. -/
lemma matchTokenAt_full (ws1 w ws2 : LStr)
    (h1 : ∀ c ∈ ws1, isSpaceC c = true) (hw : ∀ c ∈ w, isWordC c = true)
    (h2 : ∀ c ∈ ws2, isSpaceC c = true) :
    matchTokenAt (ws1 ++ (str2l "%VAR_" ++ (w ++ (str2l "%" ++ ws2))))
      = some (ws1 ++ (str2l "%VAR_" ++ (w ++ (str2l "%" ++ ws2)))).length := by
  have hrest : str2l "%VAR_" ++ (w ++ (str2l "%" ++ ws2))
      = '%' :: (str2l "VAR_" ++ (w ++ (str2l "%" ++ ws2))) := rfl
  have ha : countLeading isSpaceC (ws1 ++ (str2l "%VAR_" ++ (w ++ (str2l "%" ++ ws2))))
      = ws1.length := by
    rw [countLeading_append_all isSpaceC ws1 _ h1, hrest,
      countLeading_cons_false isSpaceC '%' _ (by decide)]
    omega
  have hdropa : (ws1 ++ (str2l "%VAR_" ++ (w ++ (str2l "%" ++ ws2)))).drop ws1.length
      = str2l "%VAR_" ++ (w ++ (str2l "%" ++ ws2)) := List.drop_left ws1 _
  have hdrop5 : (str2l "%VAR_" ++ (w ++ (str2l "%" ++ ws2))).drop 5
      = w ++ (str2l "%" ++ ws2) := by
    have : (str2l "%VAR_").length = 5 := rfl
    rw [← this]
    exact List.drop_left _ _
  have hb : countLeading isWordC (w ++ (str2l "%" ++ ws2)) = w.length := by
    rw [countLeading_append_all isWordC w _ hw,
      show str2l "%" ++ ws2 = '%' :: ws2 from rfl,
      countLeading_cons_false isWordC '%' _ (by decide)]
    omega
  have hdropb : (w ++ (str2l "%" ++ ws2)).drop w.length = '%' :: ws2 := by
    rw [show str2l "%" ++ ws2 = '%' :: ws2 from rfl]
    exact List.drop_left _ _
  have hcore : coreMatch (str2l "%VAR_" ++ (w ++ (str2l "%" ++ ws2)))
      = some (5 + w.length + 1) := by
    rw [coreMatch, if_pos (startsWithL_append _ _)]
    simp only [hdrop5, hb, hdropb, List.head?]
  have htrail : ((str2l "%VAR_" ++ (w ++ (str2l "%" ++ ws2))).drop (5 + w.length + 1))
      = ws2 := by
    have hpre : str2l "%VAR_" ++ (w ++ (str2l "%" ++ ws2))
        = (str2l "%VAR_" ++ (w ++ str2l "%")) ++ ws2 := by
      simp [List.append_assoc]
    have hlenp : (str2l "%VAR_" ++ (w ++ str2l "%")).length = 5 + w.length + 1 := by
      simp [List.length_append, show (str2l "%VAR_").length = 5 from rfl,
        show (str2l "%").length = 1 from rfl]
      omega
    rw [hpre, ← hlenp]
    exact List.drop_left _ _
  rw [matchTokenAt]
  simp only [ha, hdropa, hcore]
  rw [htrail, countLeading_all isSpaceC ws2 h2]
  congr 1
  simp [List.length_append, show (str2l "%VAR_").length = 5 from rfl,
    show (str2l "%").length = 1 from rfl]
  omega

/-- The cleanup pass deletes a line that is exactly whitespace, one
token, whitespace. -/
lemma cleanSubn_strip (ws1 w ws2 : LStr)
    (h1 : ∀ c ∈ ws1, isSpaceC c = true) (hw : ∀ c ∈ w, isWordC c = true)
    (h2 : ∀ c ∈ ws2, isSpaceC c = true) :
    cleanSubn (ws1 ++ (str2l "%VAR_" ++ (w ++ (str2l "%" ++ ws2)))) = [] := by
  have hmt := matchTokenAt_full ws1 w ws2 h1 hw h2
  set s := ws1 ++ (str2l "%VAR_" ++ (w ++ (str2l "%" ++ ws2))) with hs
  have hpos : 0 < s.length := by
    rw [hs]
    simp [List.length_append, show (str2l "%VAR_").length = 5 from rfl,
      show (str2l "%").length = 1 from rfl]
  obtain ⟨m, hm⟩ : ∃ m, s.length = m + 1 := ⟨s.length - 1, by omega⟩
  rw [cleanSubn, hm]
  simp only [cleanGo, hmt]
  rw [List.drop_length]
  exact cleanGo_nil m

/-- The per-line substitution with no marker present in any line: every
line passes through the cell loop unchanged and only the optional cleanup
pass is applied. -/
lemma replaceVars_lines_noop (headerRow row : List LStr)
    (hlen : row.length ≤ headerRow.length) :
    ∀ (lines : List LStr) (clean : Bool),
    (∀ l ∈ lines, ∀ f ∈ headerRow.take row.length, occurs (markerFor f) l = false) →
    replaceVariablesWithCsvData headerRow row lines clean
      = some ((lines.map (fun l => if clean then cleanSubn l else l)).flatten) := by
  intro lines clean
  induction lines with
  | nil => intro _; rfl
  | cons l ls ih =>
    intro hmk
    have hsub : substCells headerRow row 0 l = some l := by
      apply substCells_noop headerRow row 0 l (by omega)
      intro j f hf hj
      have h3 : (headerRow.take row.length)[j]? = some f := by
        rw [List.getElem?_take_of_lt hj]
        simpa using hf
      exact hmk l (by simp) f (List.getElem?_mem h3)
    have hline : substLineFull headerRow row l clean
        = some (if clean then cleanSubn l else l) := by
      rw [substLineFull, hsub]
      rfl
    have hrest := ih (fun l2 hl2 => hmk l2 (by simp [hl2]))
    simp [replaceVariablesWithCsvData, hline, hrest]

/-! ### Claims -/

/-- C1.  The claim says: with no repeat-designated nodes, `run` proceeds
to per-record rendering, and in multi-output mode the scenario data
source yields two documents, "Alice likes Red" and "Bob likes Blue"; the
expand-and-exit-early path is taken only when a repeat node exists.  The
code instead ends the header-row branch with an unconditional `return 1`
(the statement sits at the indentation level of the repeat-detection
`for` loop, and `CONST.REPEAT_FIELDS == 1` always), so the run exits
after the header with *no* documents written even though the
substitution engine would have produced exactly the claimed contents. -/
theorem claim_C1_run_exits_early :
    run [[str2l "name", str2l "color"], [str2l "Alice", str2l "Red"],
        [str2l "Bob", str2l "Blue"]]
      [str2l "%VAR_name% likes %VAR_color%"] [] (str2l "out") none none
      = some (1, [])
    ∧ replaceVariablesWithCsvData (handleAmpersand [str2l "name", str2l "color"])
        (handleAmpersand [str2l "Alice", str2l "Red"])
        [str2l "%VAR_name% likes %VAR_color%"] CONST_REMOVE_EMPTY_LINES
      = some (str2l "Alice likes Red")
    ∧ replaceVariablesWithCsvData (handleAmpersand [str2l "name", str2l "color"])
        (handleAmpersand [str2l "Bob", str2l "Blue"])
        [str2l "%VAR_name% likes %VAR_color%"] CONST_REMOVE_EMPTY_LINES
      = some (str2l "Bob likes Blue") := by
  refine ⟨by decide, by decide, by decide⟩

/-- C2 counterexample.  Substitution is not idempotent: with header
`["b", "a"]` and row `["z", "%VAR_b%"]`, the line `"%VAR_a%"` produces
`"%VAR_b%"` (the cell of field `a` reintroduces the marker of field `b`,
whose replacement step has already passed), and re-running the function
on that produced text yields `"z"`, not the same text. -/
theorem claim_C2_counterexample :
    replaceVariablesWithCsvData [str2l "b", str2l "a"] [str2l "z", str2l "%VAR_b%"]
      [str2l "%VAR_a%"] false = some (str2l "%VAR_b%")
    ∧ replaceVariablesWithCsvData [str2l "b", str2l "a"] [str2l "z", str2l "%VAR_b%"]
      [str2l "%VAR_b%"] false ≠ some (str2l "%VAR_b%") := by
  refine ⟨by decide, by decide⟩

/-- C2 amended.  Re-applying `replaceVariablesWithCsvData` (same cleanup
setting) to text it produced is the identity *provided* the produced text
contains no marker of any header field in the row's range and, when
cleanup is enabled, no `%VAR_` word `%` token at all — the condition the
claim's own justification ("no markers remain to match") assumes, which
cell values can violate. -/
theorem claim_C2_idempotent (headerRow row lines : List LStr) (clean : Bool) (o : LStr)
    (h1 : replaceVariablesWithCsvData headerRow row lines clean = some o)
    (hlen : row.length ≤ headerRow.length)
    (h2 : ∀ f ∈ headerRow.take row.length, occurs (markerFor f) o = false)
    (h3 : clean = true → hasCore o = false) :
    replaceVariablesWithCsvData headerRow row [o] clean = some o := by
  have hsub : substCells headerRow row 0 o = some o := by
    apply substCells_noop headerRow row 0 o (by omega)
    intro j f hf hj
    have h4 : (headerRow.take row.length)[j]? = some f := by
      rw [List.getElem?_take_of_lt hj]
      simpa using hf
    exact h2 f (List.getElem?_mem h4)
  have hline : substLineFull headerRow row o clean = some o := by
    rw [substLineFull, hsub]
    cases clean with
    | false => rfl
    | true => simp [cleanSubn_noop (h3 rfl)]
  simp [replaceVariablesWithCsvData, hline]

theorem claim_C2_witness :
    replaceVariablesWithCsvData [str2l "name"] [str2l "Alice"] [str2l "Alice!"] true
      = some (str2l "Alice!") :=
  claim_C2_idempotent [str2l "name"] [str2l "Alice"] [str2l "%VAR_name%!"] true
    (str2l "Alice!") (by decide) (by decide) (by decide) (by decide)

/-- C3 counterexample.  A residual token for a field present in the
header can remain: with header `["a"]` and row `["%VAR_a%"]`, the line
`"%VAR_a%"` still contains the `%VAR_a%` token after substitution. -/
theorem claim_C3_counterexample :
    replaceVariablesWithCsvData [str2l "a"] [str2l "%VAR_a%"] [str2l "%VAR_a%"] false
      = some (str2l "%VAR_a%")
    ∧ occurs (markerFor (str2l "a")) (str2l "%VAR_a%") = true := by
  refine ⟨by decide, by decide⟩

/-- C3 amended.  For field `i`, every occurrence present when field `i`
is processed is replaced by cell `i`: a (non-color) line `t0 ++ marker ++ t1`
becomes `t0 ++ cell ++ t1`, and no header marker remains, *provided* the
other fields' markers are absent and neither the cell value nor splicing
reintroduces a marker (the hypotheses) — without them residual tokens are
possible (see the counterexample).  Color-definition lines are never
field-substituted. -/
theorem claim_C3_substitution (headerRow row : List LStr) (i : Nat)
    (f cell t0 t1 : LStr)
    (hlen : row.length ≤ headerRow.length)
    (hf : headerRow[i]? = some f)
    (hc : row[i]? = some cell)
    (hcol : isColorLine (t0 ++ markerFor f ++ t1) = false)
    (hfirst : occurs (markerFor f) (t0 ++ (markerFor f).dropLast) = false)
    (ht1 : occurs (markerFor f) t1 = false)
    (hbefore : ∀ j g, j < i → headerRow[j]? = some g →
      occurs (markerFor g) (t0 ++ markerFor f ++ t1) = false)
    (hres : ∀ j g, i < j → j < row.length → headerRow[j]? = some g →
      occurs (markerFor g) (t0 ++ cell ++ t1) = false) :
    replaceVariablesWithCsvData headerRow row [t0 ++ markerFor f ++ t1] false
      = some (t0 ++ cell ++ t1)
    ∧ ∀ l, isColorLine l = true →
      replaceVariablesWithCsvData headerRow row [l] false = some l := by
  constructor
  · have hhit := substCells_hit headerRow row 0 i f cell t0 t1
      (by simpa using hf) hc (by omega) hcol hfirst ht1
      (fun j g hj hg => hbefore j g hj (by simpa using hg))
      (fun j g hj1 hj2 hg => hres j g hj1 hj2 (by simpa using hg))
    have hhit2 : substCells headerRow row 0 (t0 ++ (markerFor f ++ t1))
        = some (t0 ++ (cell ++ t1)) := by
      simpa [List.append_assoc] using hhit
    simp [replaceVariablesWithCsvData, substLineFull, hhit2]
  · intro l hl
    have hcolr := substCells_color headerRow row 0 l (by omega) hl
    simp [replaceVariablesWithCsvData, substLineFull, hcolr]

theorem claim_C3_witness :
    replaceVariablesWithCsvData [str2l "name"] [str2l "Alice"]
      [str2l "x " ++ markerFor (str2l "name") ++ str2l " y"] false
      = some (str2l "x " ++ str2l "Alice" ++ str2l " y")
    ∧ replaceVariablesWithCsvData [str2l "name"] [str2l "Alice"]
      [str2l "<COLOR NAME=\"%VAR_name%\">"] false
      = some (str2l "<COLOR NAME=\"%VAR_name%\">") := by
  have h := claim_C3_substitution [str2l "name"] [str2l "Alice"] 0 (str2l "name")
    (str2l "Alice") (str2l "x ") (str2l " y") (by decide) (by decide) (by decide)
    (by decide) (by decide) (by decide)
    (fun j g hj _ => absurd hj (Nat.not_lt_zero j))
    (fun j g hj1 hj2 _ => absurd hj1 (by simp at hj2; omega))
  exact ⟨h.1, h.2 (str2l "<COLOR NAME=\"%VAR_name%\">") (by decide)⟩

/-- C4 counterexample.  Cleanup does not guarantee the absence of
residue: removing the match `%VAR_q%` from `%VA%VAR_q%R_w%` splices the
surrounding text into the new token `%VAR_w%`, which remains in the
output even though cleanup was enabled. -/
theorem claim_C4_counterexample :
    replaceVariablesWithCsvData [] [] [str2l "%VA%VAR_q%R_w%"] true
      = some (str2l "%VAR_w%")
    ∧ hasCore (str2l "%VAR_w%") = true := by
  refine ⟨by decide, by decide⟩

/-- C4 amended.  With cleanup enabled a single left-to-right pass removes
each non-overlapping `\s*%VAR_\w*%\s*` match — in particular a line that
is exactly whitespace, token, whitespace is deleted entirely — but the
pass is not iterated, so a token spliced together by a removal can
survive (see the counterexample); with cleanup disabled, lines whose
markers are all unmatched pass through verbatim. -/
theorem claim_C4_cleanup :
    (∀ ws1 w ws2 : LStr, (∀ c ∈ ws1, isSpaceC c = true) →
      (∀ c ∈ w, isWordC c = true) → (∀ c ∈ ws2, isSpaceC c = true) →
      cleanSubn (ws1 ++ (str2l "%VAR_" ++ (w ++ (str2l "%" ++ ws2)))) = [])
    ∧ ∀ headerRow row lines, row.length ≤ headerRow.length →
      (∀ l ∈ lines, ∀ f ∈ headerRow.take row.length, occurs (markerFor f) l = false) →
      replaceVariablesWithCsvData headerRow row lines true
        = some ((lines.map cleanSubn).flatten)
      ∧ replaceVariablesWithCsvData headerRow row lines false = some lines.flatten := by
  refine ⟨cleanSubn_strip, ?_⟩
  intro headerRow row lines hlen hmk
  constructor
  · have h := replaceVars_lines_noop headerRow row hlen lines true hmk
    simpa using h
  · have h := replaceVars_lines_noop headerRow row hlen lines false hmk
    simpa using h

theorem claim_C4_witness :
    cleanSubn (str2l " " ++ (str2l "%VAR_" ++ (str2l "x" ++ (str2l "%" ++ str2l " ")))) = []
    ∧ (replaceVariablesWithCsvData [str2l "a"] [str2l "v"] [str2l "no markers here"] true
        = some (([str2l "no markers here"].map cleanSubn)).flatten
      ∧ replaceVariablesWithCsvData [str2l "a"] [str2l "v"] [str2l "no markers here"] false
        = some [str2l "no markers here"].flatten) :=
  ⟨claim_C4_cleanup.1 (str2l " ") (str2l "x") (str2l " ") (by decide) (by decide) (by decide),
   claim_C4_cleanup.2 [str2l "a"] [str2l "v"] [str2l "no markers here"] (by decide) (by decide)⟩

/-- C5.  `shiftPagesAndObjects` with folded index `k` adds the vertical
offset `(pageheight + vgap) * k` to every page's `PAGEYPOS` and every
object's `YPOS`, and adds the reference page count to every page's `NUM`
and every object's `OwnPage` — in both identifier schemes. -/
theorem claim_C5_shift_offsets (d : DocElt) (pagescount : Int) (pageheight vgap : ℚ)
    (k : Nat) (groupscount objscount : Int) (version : LStr) :
    (shiftPagesAndObjects d pagescount pageheight vgap k groupscount objscount version).1
      = d.pages.map (fun p =>
          { pageypos := p.pageypos + (pageheight + vgap) * (k : ℚ)
            num := p.num + pagescount })
    ∧ shiftedGeometry
        (shiftPagesAndObjects d pagescount pageheight vgap k groupscount objscount version).2
      = d.objects.map (fun o =>
          (o.ypos + (pageheight + vgap) * (k : ℚ), o.ownPage + pagescount)) := by
  unfold shiftPagesAndObjects
  by_cases hv : startsWithL (str2l "1.4") version = true
  · simp only [hv, if_pos]
    exact ⟨rfl, by simp [shiftedGeometry, shiftObject14, List.map_map, Function.comp]⟩
  · simp only [hv, Bool.false_eq_true, if_neg, not_false_eq_true]
    exact ⟨rfl, by simp [shiftedGeometry, shiftObject15, List.map_map, Function.comp]⟩

/-- C6.  Renumbering is *not* collision-free: every folded record's page
`NUM` is offset by the constant reference page count (not by
`k * pagescount`), so the records at folded indices 1 and 2 receive
identical page numbers; and in the unique-ItemID scheme the rewrite
`str(objscount * index) + str(int(id))[3:]` maps the distinct ItemIDs
123456 and 999456 of one record to the same identifier `1456` (the source
itself carries `todo ensure unique ID`). -/
theorem claim_C6_collisions :
    ((shiftPagesAndObjects
        ⟨[⟨0, 0⟩], [⟨0, 0, 123456, none, none⟩, ⟨0, 0, 999456, none, none⟩]⟩
        1 10 2 1 0 1 (str2l "1.5.0")).1.map Page.num
      = (shiftPagesAndObjects
        ⟨[⟨0, 0⟩], [⟨0, 0, 123456, none, none⟩, ⟨0, 0, 999456, none, none⟩]⟩
        1 10 2 2 0 1 (str2l "1.5.0")).1.map Page.num)
    ∧ shiftedIDs (shiftPagesAndObjects
        ⟨[⟨0, 0⟩], [⟨0, 0, 123456, none, none⟩, ⟨0, 0, 999456, none, none⟩]⟩
        1 10 2 1 0 1 (str2l "1.5.0")).2
      = [str2l "1456", str2l "1456"] := by
  refine ⟨by decide, by decide⟩

/-- C7.  A data source with fewer than two rows makes `run` return the
failure status `-1` immediately, with no output document written. -/
theorem claim_C7_short_data (csvData : List (List LStr))
    (templateLines annames : List LStr) (outputFileName : LStr)
    (firstRow lastRow : Option Int) (h : csvData.length < 2) :
    run csvData templateLines annames outputFileName firstRow lastRow
      = some (-1, []) := by
  rw [run.eq_def]
  by_cases h1 : csvData.length < 1
  · rw [if_pos h1]
  · rw [if_neg h1, if_pos h]

theorem claim_C7_witness :
    run [[str2l "name", str2l "color"]] [str2l "t"] [] [] none none = some (-1, []) :=
  claim_C7_short_data _ _ _ _ _ _ (by decide)

/-- C8.  An empty `Parameter` path targets the annotated content node
itself — the override sets the named attribute on that node — and a path
starting with `/` is normalized by prefixing `.` to make it
relative-searchable. -/
theorem claim_C8_default_target (po : XElt) (attrName value : LStr) :
    (overwriteStep po attrName value CONST_EMPTY = po.setA attrName value
      ∧ findallModel po (pathSegments (normalizeParam CONST_EMPTY)) = [po])
    ∧ ∀ p : LStr, startsWithL (str2l "/") p = true →
      normalizeParam p = str2l "." ++ p := by
  refine ⟨⟨rfl, rfl⟩, ?_⟩
  intro p hp
  cases p with
  | nil => exact absurd hp (by decide)
  | cons c r => rw [normalizeParam, if_neg (by simp), if_pos hp]

theorem claim_C8_witness :
    overwriteStep (XElt.mk (str2l "PAGEOBJECT") [] []) (str2l "FONT")
        (str2l "%VAR_font%") CONST_EMPTY
      = (XElt.mk (str2l "PAGEOBJECT") [] []).setA (str2l "FONT") (str2l "%VAR_font%")
    ∧ normalizeParam (str2l "/ITEXT") = str2l "." ++ str2l "/ITEXT" :=
  ⟨(claim_C8_default_target (XElt.mk (str2l "PAGEOBJECT") [] [])
      (str2l "FONT") (str2l "%VAR_font%")).1.1,
   (claim_C8_default_target (XElt.mk (str2l "PAGEOBJECT") [] [])
      (str2l "FONT") (str2l "%VAR_font%")).2 (str2l "/ITEXT") (by decide)⟩

/-- C9 counterexample.  A persisted-settings blob in which the key `to`
is absent does not load with an empty default: the subscription raises
`KeyError` and the load fails. -/
theorem claim_C9_counterexample :
    loadFromString [(str2l "csvfile", some (str2l "d.csv")), (str2l "outdir", none),
      (str2l "outname", some []), (str2l "outformat", some (str2l "PDF")),
      (str2l "keepsla", some []), (str2l "separator", some (str2l ",")),
      (str2l "single", some []), (str2l "from", some [])] = none := by
  decide

/-- C9 amended.  `loadFromString` succeeds exactly when all nine expected
keys are present; it is keys bound to JSON `null` — not absent keys —
whose values default to empty. -/
theorem claim_C9_load (j : List (LStr × Option LStr)) :
    (loadFromString j).isSome
      = expectedSettingsKeys.all (fun k => (jLookup k (normNulls j)).isSome)
    ∧ ∀ k : LStr, jLookup k (normNulls j)
      = (rawLookup k j).map (fun v => v.getD CONST_EMPTY) := by
  constructor
  · cases h1 : jLookup (str2l "csvfile") (normNulls j) with
    | none => simp [loadFromString, h1, expectedSettingsKeys]
    | some a1 =>
    cases h2 : jLookup (str2l "outdir") (normNulls j) with
    | none => simp [loadFromString, h1, h2, expectedSettingsKeys]
    | some a2 =>
    cases h3 : jLookup (str2l "outname") (normNulls j) with
    | none => simp [loadFromString, h1, h2, h3, expectedSettingsKeys]
    | some a3 =>
    cases h4 : jLookup (str2l "outformat") (normNulls j) with
    | none => simp [loadFromString, h1, h2, h3, h4, expectedSettingsKeys]
    | some a4 =>
    cases h5 : jLookup (str2l "keepsla") (normNulls j) with
    | none => simp [loadFromString, h1, h2, h3, h4, h5, expectedSettingsKeys]
    | some a5 =>
    cases h6 : jLookup (str2l "separator") (normNulls j) with
    | none => simp [loadFromString, h1, h2, h3, h4, h5, h6, expectedSettingsKeys]
    | some a6 =>
    cases h7 : jLookup (str2l "single") (normNulls j) with
    | none => simp [loadFromString, h1, h2, h3, h4, h5, h6, h7, expectedSettingsKeys]
    | some a7 =>
    cases h8 : jLookup (str2l "from") (normNulls j) with
    | none => simp [loadFromString, h1, h2, h3, h4, h5, h6, h7, h8, expectedSettingsKeys]
    | some a8 =>
    cases h9 : jLookup (str2l "to") (normNulls j) with
    | none => simp [loadFromString, h1, h2, h3, h4, h5, h6, h7, h8, h9, expectedSettingsKeys]
    | some a9 => simp [loadFromString, h1, h2, h3, h4, h5, h6, h7, h8, h9, expectedSettingsKeys]
  · intro k
    induction j with
    | nil => rfl
    | cons kv r ih =>
      cases hk : kv.1 == k with
      | true => simp [jLookup, rawLookup, normNulls, List.find?_cons, hk]
      | false =>
        simp only [jLookup, rawLookup, normNulls, List.map_cons, List.find?_cons, hk]
        simpa [jLookup, rawLookup, normNulls] using ih

/-- C10.  `replaceVariablesWithCsvData` is total only when the record is
no longer than the header: a strictly longer record makes `headerRow[i]`
go out of range on the first line, and the whole call fails instead of
the violating row being reported as a data-source error. -/
theorem claim_C10_overlong_row (headerRow row : List LStr) (lines : List LStr)
    (clean : Bool) (h : headerRow.length < row.length) (hl : lines ≠ []) :
    replaceVariablesWithCsvData headerRow row lines clean = none := by
  cases lines with
  | nil => exact absurd rfl hl
  | cons l ls =>
    have hrow : row ≠ [] := by
      intro hr
      subst hr
      simp at h
    have hsub : substCells headerRow row 0 l = none :=
      substCells_overflow headerRow row 0 l hrow (by omega)
    simp [replaceVariablesWithCsvData, substLineFull, hsub]

theorem claim_C10_witness :
    replaceVariablesWithCsvData [str2l "a"] [str2l "x", str2l "y"] [str2l "z"] true
      = none :=
  claim_C10_overlong_row [str2l "a"] [str2l "x", str2l "y"] [str2l "z"] true
    (by decide) (by simp)

end ScribusGenerator
